import Mathlib

/-!
Verification development for the ratchet pipeline runtime
(`src/pipeline.go`, `src/unnamed/part_000` = util.KillPipelineIfErr).

Shallow embedding: payloads (`data.JSON`, a Go byte slice) are byte lists,
Go channels are modelled by the lists of values sent on them, goroutine
bodies by the event traces they produce on a given schedule.  Definitions
whose Go source is not under `src/` (data_processor.go, pipeline_layout.go)
are modelled from the specification and say so in their doc comment.
-/

namespace Ratchet

/-- `data.JSON` is a Go byte slice; modelled as a list of byte values. -/
abbrev JSON := List Nat

/-- Go `error` values that participants report are non-nil; modelled as
strings.  A Go `error` variable (which may be nil) is `Option Err`. -/
abbrev Err := String

/-- From src/pipeline.go: `var StartSignal = "GO"`. -/
def StartSignal : String := "GO"

/-- The payload `data.JSON(StartSignal)` written into each root input
channel by `Run`: the UTF-8 bytes of `StartSignal`. -/
def startSignalJSON : JSON :=
  (StartSignal.data.flatMap String.utf8EncodeChar).map (fun b => b.toNat)

instance {ε α : Type} [DecidableEq ε] [DecidableEq α] : DecidableEq (Except ε α) := fun a b =>
  match a, b with
  | .ok x, .ok y =>
      if h : x = y then isTrue (by rw [h])
      else isFalse (by intro hh; cases hh; exact h rfl)
  | .error x, .error y =>
      if h : x = y then isTrue (by rw [h])
      else isFalse (by intro hh; cases hh; exact h rfl)
  | .ok _, .error _ => isFalse (by intro h; cases h)
  | .error _, .ok _ => isFalse (by intro h; cases h)

/-- A `dataProcessor` wrapper node, identified (Go: pointer identity) by a
numeric id; `outputs` holds successor ids recorded by `Outputs`,
`concurrency` the concurrency hint. -/
structure dataProcessor where
  id : Nat
  outputs : List Nat
  concurrency : Nat
deriving DecidableEq, Repr

/-- From the layout model: a stage is a list of processors. -/
structure PipelineStage where
  processors : List dataProcessor
deriving DecidableEq, Repr

/-- A validated layout: the stage sequence. -/
structure PipelineLayout where
  stages : List PipelineStage
deriving DecidableEq, Repr

/-- Modelled from the spec: the fluent builder `Do(p)` (data_processor.go is
not under src/) wraps a processor into a `dataProcessor` node with no
successors recorded yet; the concurrency hint defaults to 1. -/
def Do (id : Nat) : dataProcessor := { id := id, outputs := [], concurrency := 1 }

/-- Modelled from the spec: `Do(p).Outputs(q1 ... qm)` records the successor
identities on the node. -/
def Outputs (dp : dataProcessor) (outs : List Nat) : dataProcessor :=
  { dp with outputs := outs }

/-- `NewPipelineStage` collects processors into a stage. -/
def NewPipelineStage (ps : List dataProcessor) : PipelineStage := ⟨ps⟩

/-- Index of the first stage containing processor `q` (spec: "locate q in
some stage j"). -/
def stageOf (stages : List PipelineStage) (q : Nat) : Option Nat :=
  stages.findIdx? (fun st => st.processors.any (fun p => p.id == q))

/-- Spec validation for a single edge out of stage `i` into processor `q`:
`q` must live in some stage `j` with `j > i`. -/
def edgeOk (stages : List PipelineStage) (i : Nat) (q : Nat) : Bool :=
  match stageOf stages q with
  | some j => decide (i < j)
  | none => false

/-- All edges `(stage index of source, source id, target id)` of a stage
list, enumerating stages from index `i`. -/
def stageEdgesFrom : Nat → List PipelineStage → List (Nat × Nat × Nat)
  | _, [] => []
  | i, st :: rest =>
      st.processors.flatMap (fun p => p.outputs.map (fun q => (i, p.id, q)))
        ++ stageEdgesFrom (i + 1) rest

/-- All edges of a stage list with their source-stage indices. -/
def allLayoutEdges (stages : List PipelineStage) : List (Nat × Nat × Nat) :=
  stageEdgesFrom 0 stages

/-- First offending edge, if any (spec: "If not found or j ≤ i, fail with a
descriptive error naming the offending edge"). -/
def findBadEdge (stages : List PipelineStage) : Option (Nat × Nat × Nat) :=
  (allLayoutEdges stages).find? (fun t => !(edgeOk stages t.1 t.2.2))

/-- Layout construction errors. -/
inductive LayoutError
  | emptyLayout
  | badEdge (fromId : Nat) (toId : Nat) (fromStage : Nat)
deriving DecidableEq, Repr

/-- Modelled from the spec: `NewPipelineLayout` (pipeline_layout.go is not
under src/).  "Reject empty layout.  For each stage index i, for each
processor p in stage i, for each q in p.outputs: locate q in some stage j;
require j > i.  If not found or j ≤ i, fail with a descriptive error naming
the offending edge." -/
def NewPipelineLayout (stages : List PipelineStage) : Except LayoutError PipelineLayout :=
  if stages.isEmpty then .error .emptyLayout
  else
    match findBadEdge stages with
    | some (i, f, t) => .error (.badEdge f t i)
    | none => .ok ⟨stages⟩

/-- From src/pipeline.go `NewPipeline`: the loop building one stage per
processor, recording `processors[i+1]` as the sole output of processor `i`
(`if i < len(processors)-1 { dp.Outputs(processors[i+1]) }`). -/
def buildLinearStages : List Nat → List PipelineStage
  | [] => []
  | [p] => [NewPipelineStage [Do p]]
  | p :: q :: rest => NewPipelineStage [Outputs (Do p) [q]] :: buildLinearStages (q :: rest)

/-- The `Pipeline` struct fields the claims concern.  Go zero-initialises
fields not mentioned in a composite literal, so `BufferLength` is 0 unless
set. -/
structure Pipeline where
  layout : Option PipelineLayout
  Name : String
  BufferLength : Nat
  PrintData : Bool
deriving DecidableEq, Repr

/-- From src/pipeline.go `NewPipeline`: `p := &Pipeline{Name: "Pipeline"}`
(all other fields Go-zero valued, so `BufferLength = 0`), then
`p.layout, _ = NewPipelineLayout(stages...)` — the construction error is
discarded, leaving `layout = nil` when validation fails. -/
def NewPipeline (processors : List Nat) : Pipeline :=
  { layout := (NewPipelineLayout (buildLinearStages processors)).toOption
    Name := "Pipeline"
    BufferLength := 0
    PrintData := false }

/-- From src/pipeline.go `initDataChan`:
`return make(chan data.JSON, p.BufferLength)`; the model records the
capacity of the allocated channel. -/
def initDataChan (p : Pipeline) : Nat := p.BufferLength

/-- From src/pipeline.go `initDataChans`: a list of `length` channels each
allocated by `initDataChan`. -/
def initDataChans (p : Pipeline) (length : Nat) : List Nat :=
  List.replicate length (initDataChan p)

/-- From src/pipeline.go `runStages`:
`numWorkers := 1; if dp.concurrency > 1 { numWorkers = dp.concurrency }`. -/
def numWorkers (dp : dataProcessor) : Nat :=
  if dp.concurrency > 1 then dp.concurrency else 1

/-- Events produced by one worker goroutine of `runStages`. -/
inductive WEvent
  | processData (d : JSON)
  | finish
deriving DecidableEq, Repr

def WEvent.isFinish : WEvent → Bool
  | .finish => true
  | _ => false

def WEvent.isProcessData : WEvent → Bool
  | .processData _ => true
  | _ => false

/-- From src/pipeline.go `runStages`, the body of one worker goroutine:
loop selecting on `dp.inputChan` and `p.ctx.Done()`.  `input` is the list
of payloads this worker receives before the channel closes; `cancelAt` is
`some k` when the `ctx.Done` branch is selected after `k` receives (the
worker then returns without calling `Finish`).  When the input channel
closes (`!ok`), the loop breaks and the worker calls
`dp.Finish(dp.outputChan, killChan, p.ctx)`. -/
def workerLoop : List JSON → Option Nat → List WEvent
  | _, some 0 => []
  | [], _ => [WEvent.finish]
  | d :: ds, c => WEvent.processData d :: workerLoop ds (c.map Nat.pred)

/-- Traces of the workers of one node, given the payloads each worker
receives from the shared input channel, with no cancellation. -/
def workerTraces (inputs : List (List JSON)) : List (List WEvent) :=
  inputs.map (fun i => workerLoop i none)

/-- Number of `ProcessData` calls across a node's workers. -/
def totalProcessData (ts : List (List WEvent)) : Nat :=
  (ts.map (fun t => t.countP WEvent.isProcessData)).sum

/-- Number of `Finish` calls in one worker trace. -/
def countFinish (t : List WEvent) : Nat := t.countP WEvent.isFinish

/-- From src/pipeline.go `runStages`, the goroutine
`go func(dp, n) { concurrencyWg.Wait(); if dp.outputChan != nil { close(dp.outputChan) } }`:
the number of `close(dp.outputChan)` operations it performs. -/
def terminatorCloseCount (hasOutputChan : Bool) : Nat :=
  if hasOutputChan then 1 else 0

/-- Events performed by `Run` itself on a root processor's channels. -/
inductive RunEvent
  | sendInput (dpId : Nat) (d : JSON)
  | inlineFinish (dpId : Nat)
  | closeInput (dpId : Nat)
deriving DecidableEq, Repr

def RunEvent.isInlineFinish : RunEvent → Bool
  | .inlineFinish _ => true
  | _ => false

def RunEvent.isCloseInput : RunEvent → Bool
  | .closeInput _ => true
  | _ => false

/-- From src/pipeline.go `Run`, the body of the loop over
`p.layout.stages[0].processors`:
`dp.inputChan <- data.JSON(StartSignal); dp.Finish(dp.outputChan, innerKillChan, p.ctx); close(dp.inputChan)`. -/
def rootBlock (dp : dataProcessor) : List RunEvent :=
  [RunEvent.sendInput dp.id startSignalJSON,
   RunEvent.inlineFinish dp.id,
   RunEvent.closeInput dp.id]

/-- The whole root loop of `Run`. -/
def rootKickoff (roots : List dataProcessor) : List RunEvent :=
  roots.flatMap rootBlock

/-- Actions of the goroutine `go func() { p.wg.Wait(); p.timer.Stop() }` in
`Run` — the goroutine that observes the worker wait-group draining. -/
inductive WatchAction
  | wgWait
  | timerStop
  | sendInnerKill (e : Option Err)
  | sendKillOut (e : Option Err)
  | closeKillOut
deriving DecidableEq, Repr

def WatchAction.isChanAction : WatchAction → Bool
  | .wgWait => false
  | .timerStop => false
  | _ => true

/-- From src/pipeline.go `Run`: the completion-watcher goroutine's body,
statement by statement.  It performs no channel operation: it neither
sends on `innerKillChan` nor touches `killChan`. -/
def completionWatcherActions : List WatchAction :=
  [WatchAction.wgWait, WatchAction.timerStop]

/-- The event that makes the kill-arbiter goroutine's `select` fire:
a receive on `innerKillChan` (carrying a Go error value, possibly nil) or
the firing of `p.ctx.Done()` (with `p.ctx.Err()`, always non-nil). -/
inductive ArbInput
  | kill (e : Option Err)
  | ctxDone (e : Err)
deriving DecidableEq, Repr

/-- The value the arbiter forwards to `killChan` for a given input. -/
def arbValue : ArbInput → Option Err
  | .kill e => e
  | .ctxDone e => some e

/-- Observable outcome of the kill-arbiter goroutine of `Run`. -/
structure ArbResult where
  deliveredOnKillOut : List (Option Err)
  killOutCloses : Nat
  innerKillCloses : Nat
  onCompleteRuns : Nat
  cancelCalled : Bool
deriving DecidableEq, Repr

/-- From src/pipeline.go `Run`, the kill-arbiter goroutine:
`for { select { case err := <-innerKillChan: p.cancel(); killChan <- err; close(killChan); return
               case <-p.ctx.Done(): killChan <- p.ctx.Err(); close(killChan); return } }`
with `defer { onComplete(); p.cancel() }`.  `first` is the first (and only)
event its select ever fires on; `none` means neither case ever becomes
ready, so the goroutine blocks forever and none of its statements (the
deferred ones included) run.  `hasCb` records whether `p.onComplete != nil`. -/
def arbiterRun (first : Option ArbInput) (hasCb : Bool) : ArbResult :=
  match first with
  | none =>
      { deliveredOnKillOut := [], killOutCloses := 0, innerKillCloses := 0
        onCompleteRuns := 0, cancelCalled := false }
  | some (.kill e) =>
      { deliveredOnKillOut := [e], killOutCloses := 1, innerKillCloses := 0
        onCompleteRuns := if hasCb then 1 else 0, cancelCalled := true }
  | some (.ctxDone e) =>
      { deliveredOnKillOut := [some e], killOutCloses := 1, innerKillCloses := 0
        onCompleteRuns := if hasCb then 1 else 0, cancelCalled := true }

/-- From src/pipeline.go `Run`: once the arbiter's select has fired, the
runtime context is cancelled — in the `innerKillChan` branch `p.cancel()`
runs before the forward, and in the `ctx.Done` branch the context is
already done. -/
def ctxDoneAfterArbiter : ArbInput → Bool
  | .kill _ => true
  | .ctxDone _ => true

/-- Outcome of one `util.KillPipelineIfErr` call. -/
inductive KillResult
  | noSend
  | droppedByCancel
  | sentKill (e : Err)
deriving DecidableEq, Repr

/-- From src/unnamed/part_000 `util.KillPipelineIfErr`:
`if err != nil { logger.Error(...); select { case <-ctx.Done(): case killChan <- err: } }`.
After the arbiter has exited nothing ever receives on `killChan` again, so
with `ctxDone = true` the select can only take the `ctx.Done()` branch. -/
def KillPipelineIfErr (err : Option Err) (ctxDone : Bool) : KillResult :=
  match err with
  | none => .noSend
  | some e => if ctxDone then .droppedByCancel else .sentKill e

/-- Outcomes of the error reports made after the arbiter consumed its first
event: each later participant runs `util.KillPipelineIfErr` with the
context already cancelled. -/
def laterErrorResults (first : ArbInput) (later : List Err) : List KillResult :=
  later.map (fun e => KillPipelineIfErr (some e) (ctxDoneAfterArbiter first))

/-- From src/pipeline.go `Cleanup`:
`if p.onComplete != nil { p.onComplete() }`.  Whether this call invokes the
callback.  The source consults only `p.onComplete != nil`; the
`alreadyRan` argument mirrors that by being ignored. -/
def cleanupInvokes (hasCb : Bool) (_alreadyRan : Bool) : Bool := hasCb

/-- `onComplete` invocations during `Run` itself: only the arbiter's defer
runs it, so a run whose arbiter never fires (natural completion) never
invokes it. -/
def onCompleteRunsInRun (first : Option ArbInput) (hasCb : Bool) : Nat :=
  (arbiterRun first hasCb).onCompleteRuns

/-- Total `onComplete` invocations of a `Run` with arbiter input `first`
followed by one `Cleanup` call. -/
def runThenCleanupCount (first : Option ArbInput) (hasCb : Bool) : Nat :=
  onCompleteRunsInRun first hasCb
    + (if cleanupInvokes hasCb (onCompleteRunsInRun first hasCb > 0) then 1 else 0)

/-- Modelled from the spec: `dataProcessor.branchOut` (data_processor.go is
not under src/).  "Reads from p.outputChan; for each payload, writes it to
every channel in branchOutChans, in declaration order […].  When
p.outputChan closes, close every branch channel and exit."  Given the list
of payloads emitted on `outputChan` and the number `d` of branch channels,
returns the contents each branch channel has received when it is closed. -/
def branchOut (emitted : List JSON) (d : Nat) : List (List JSON) :=
  emitted.foldl (fun chans payload => chans.map (fun c => c ++ [payload]))
    (List.replicate d [])

/-- One event observed by the merge-in adapter of a node: a payload
forwarded from upstream channel `src`, or the closing of upstream channel
`src`. -/
inductive UpEvent
  | payload (src : Nat) (d : JSON)
  | closeUp (src : Nat)
deriving DecidableEq, Repr

def UpEvent.isCloseUp : UpEvent → Bool
  | .closeUp _ => true
  | _ => false

/-- Number of upstream-close events in a merger event list. -/
def countCloses (evts : List UpEvent) : Nat := evts.countP UpEvent.isCloseUp

/-- Merge-in adapter state: the wait-barrier count of upstream channels not
yet closed, and how many times `p.inputChan` has been closed. -/
structure MergerState where
  openUpstream : Nat
  inputCloseCount : Nat
deriving DecidableEq, Repr

/-- Modelled from the spec: `dataProcessor.mergeIn` (data_processor.go is
not under src/).  "Spawns one reader per input channel that forwards
payloads into p.inputChan; when all inputs have closed (reference-counted
by a wait barrier), close p.inputChan and exit."  A payload forward leaves
the barrier untouched; an upstream close decrements it, and when it
reaches zero `p.inputChan` is closed. -/
def mergerStep (s : MergerState) (e : UpEvent) : MergerState :=
  match e with
  | .payload _ _ => s
  | .closeUp _ =>
      if s.openUpstream - 1 = 0 then
        { openUpstream := 0, inputCloseCount := s.inputCloseCount + 1 }
      else
        { openUpstream := s.openUpstream - 1, inputCloseCount := s.inputCloseCount }

/-- State of the merge-in adapter of a node with `d` upstream producers
after the events `evts`. -/
def runMerger (d : Nat) (evts : List UpEvent) : MergerState :=
  evts.foldl mergerStep { openUpstream := d, inputCloseCount := 0 }

/-- From src/pipeline.go `Run`: the first thing `connectStages` (and hence
`Run`) does with the layout is range over `p.layout.stages`; with a nil
layout this dereferences a nil pointer and panics. -/
inductive RunStart
  | panicNilLayout
  | started (rootIds : List Nat)
deriving DecidableEq, Repr

/-- The start of `Run` on a pipeline: either the nil-layout panic, or the
run proceeds and `Run`'s root loop targets `p.layout.stages[0].processors`. -/
def runStart (p : Pipeline) : RunStart :=
  match p.layout with
  | none => .panicNilLayout
  | some l => .started (((l.stages.headD ⟨[]⟩).processors).map (fun dp => dp.id))

/-- Helper: mapping a constant function yields a replicate. -/
lemma map_const_replicate {α β : Type} (xs : List α) (c : β) :
    xs.map (fun _ => c) = List.replicate xs.length c := by
  induction xs with
  | nil => rfl
  | cons x xs ih => simp [List.replicate, ih]

/-- Helper: folding the branch-out step over the emitted payloads appends
the whole emission to every branch channel. -/
lemma branchOut_foldl_eq (emitted : List JSON) (chans : List (List JSON)) :
    emitted.foldl (fun cs p => cs.map (fun c => c ++ [p])) chans
      = chans.map (fun c => c ++ emitted) := by
  induction emitted generalizing chans with
  | nil => simp
  | cons d ds ih =>
      simp only [List.foldl_cons]
      rw [ih, List.map_map]
      congr 1
      funext c
      simp

/-- C1: the claim says `Finish` is invoked at most once per node per `Run`.
On the code it is not: every worker of a node calls `dp.Finish` when the
input channel closes, so a node with concurrency 2 gets 2 calls; and for a
root processor `Run` additionally calls `dp.Finish` inline right after
sending the start token, so even a concurrency-1 root gets 2 calls. -/
theorem finish_invoked_more_than_once :
    countFinish (workerLoop [] none) + countFinish (workerLoop [[7]] none) = 2
    ∧ (rootKickoff [Do 0]).countP RunEvent.isInlineFinish
        + countFinish (workerLoop [startSignalJSON] none) = 2 := by
  decide

/-- C2: the claim says that when the worker wait-group drains with no kill
send and no cancellation, the caller's receive on `killOut` yields nil.  On
the code the goroutine that observes the wait-group draining only stops
the timer — it performs no channel operation — and the arbiter's select
has no other way to fire, so on natural completion nothing is ever
delivered on `killOut`, it is never closed, and `onComplete` never runs. -/
theorem natural_completion_delivers_nothing :
    completionWatcherActions.countP WatchAction.isChanAction = 0
    ∧ (arbiterRun none true).deliveredOnKillOut = []
    ∧ (arbiterRun none true).killOutCloses = 0
    ∧ (arbiterRun none true).onCompleteRuns = 0 := by
  decide

/-- C3 counterexample: the claim says `Cleanup` invokes `onComplete` only
if it has not already run.  On the code, after a run that ended via the
arbiter (`onComplete` already invoked once), a `Cleanup` call invokes it
again — `Cleanup` consults only `p.onComplete != nil`, there is no
already-ran guard — for a total of 2 invocations. -/
theorem cleanup_runs_onComplete_again :
    onCompleteRunsInRun (some (ArbInput.kill (some "E"))) true = 1
    ∧ cleanupInvokes true true = true
    ∧ runThenCleanupCount (some (ArbInput.kill (some "E"))) true = 2 := by
  decide

/-- C3 amended: in the terminal states actually reached through the
arbiter (FAILED on a kill receive, CANCELLED on context cancellation) the
arbiter's defer invokes `onComplete` exactly once; a run that completes
naturally never fires the arbiter and never invokes `onComplete`; and
`Cleanup` invokes `onComplete` unconditionally whenever it is non-nil,
regardless of whether it has already run. -/
theorem onComplete_once_per_arbiter_exit_and_cleanup_unconditional :
    ∀ (e : ArbInput) (already : Bool),
      onCompleteRunsInRun (some e) true = 1
      ∧ onCompleteRunsInRun none true = 0
      ∧ cleanupInvokes true already = true
      ∧ cleanupInvokes false already = false := by
  intro e already
  cases e <;> simp [onCompleteRunsInRun, arbiterRun, cleanupInvokes]

/-- C4: the claim says links default to capacity 8.  On the code
`NewPipeline` builds `&Pipeline{Name: "Pipeline"}`, leaving `BufferLength`
at Go's zero value 0 — nothing ever sets the documented default 8 — so
`initDataChan` allocates unbuffered channels. -/
theorem default_buffer_length_zero :
    (NewPipeline [0, 1]).BufferLength = 0
    ∧ initDataChan (NewPipeline [0, 1]) = 0
    ∧ initDataChan (NewPipeline [0, 1]) ≠ 8 := by
  decide

/-- C7: the first event the arbiter's select fires on determines the single
value delivered on `killOut`; `killOut` is then closed once; the arbiter
never closes `innerKillChan`; and every error reported later runs
`util.KillPipelineIfErr` with the context already cancelled, so its select
takes the `ctx.Done()` branch — the error is silently dropped and the
sender is unblocked by cancellation, not by a receive. -/
theorem first_error_wins :
    ∀ (first : ArbInput) (later : List Err) (hasCb : Bool),
      (arbiterRun (some first) hasCb).deliveredOnKillOut = [arbValue first]
      ∧ (arbiterRun (some first) hasCb).killOutCloses = 1
      ∧ (arbiterRun (some first) hasCb).innerKillCloses = 0
      ∧ laterErrorResults first later
          = List.replicate later.length KillResult.droppedByCancel := by
  intro first later hasCb
  refine ⟨?_, ?_, ?_, ?_⟩ <;> cases first <;>
    simp [arbiterRun, arbValue, laterErrorResults, ctxDoneAfterArbiter,
      KillPipelineIfErr, map_const_replicate]

/-- C8: the branch-out adapter of a node with fan-out degree `d` delivers
the emitted payload sequence to each of the `d` branch channels exactly
once and in emission order: the contents of the branch channels at close
time are `d` copies of the emitted sequence. -/
theorem fanout_delivers_each_payload_once_per_branch :
    ∀ (emitted : List JSON) (d : Nat),
      branchOut emitted d = List.replicate d emitted
      ∧ (branchOut emitted d).length = d := by
  intro emitted d
  constructor
  · rw [branchOut, branchOut_foldl_eq, List.map_replicate]
    simp
  · rw [branchOut, branchOut_foldl_eq]
    simp

/-- C10: `NewPipeline` discards the error from layout construction
(`p.layout, _ = NewPipelineLayout(...)`); for an empty processor list the
construction fails with the empty-layout error, the pipeline's layout is
nil, and `Run` dereferences the nil layout (panic) instead of reporting
the error. -/
theorem nil_layout_panic_on_empty_pipeline :
    NewPipelineLayout (buildLinearStages []) = Except.error LayoutError.emptyLayout
    ∧ (NewPipeline []).layout = none
    ∧ runStart (NewPipeline []) = RunStart.panicNilLayout := by
  decide

/-- Helper: every edge of the layout is listed in `stageEdgesFrom`, with
its stage index shifted by the enumeration offset. -/
lemma mem_stageEdgesFrom (stages : List PipelineStage) :
    ∀ (i k : Nat) (st : PipelineStage), stages[k]? = some st →
      ∀ p ∈ st.processors, ∀ q ∈ p.outputs,
        (i + k, p.id, q) ∈ stageEdgesFrom i stages := by
  induction stages with
  | nil => intro i k st h; simp at h
  | cons s rest ih =>
      intro i k st h p hp q hq
      cases k with
      | zero =>
          simp only [List.getElem?_cons_zero, Option.some.injEq] at h
          subst h
          unfold stageEdgesFrom
          apply List.mem_append_left
          exact List.mem_flatMap.mpr ⟨p, hp, List.mem_map.mpr ⟨q, hq, by simp⟩⟩
      | succ k' =>
          simp only [List.getElem?_cons_succ] at h
          unfold stageEdgesFrom
          apply List.mem_append_right
          have hmem := ih (i + 1) k' st h p hp q hq
          have harith : i + 1 + k' = i + (k' + 1) := by omega
          rw [harith] at hmem
          exact hmem

/-- Helper: a true `edgeOk` check yields the strictly later stage. -/
lemma edgeOk_true {stages : List PipelineStage} {i q : Nat}
    (h : edgeOk stages i q = true) : ∃ j, stageOf stages q = some j ∧ i < j := by
  unfold edgeOk at h
  cases hs : stageOf stages q with
  | none => rw [hs] at h; simp at h
  | some j => rw [hs] at h; exact ⟨j, rfl, by simpa using h⟩

/-- C5: layout construction rejects the empty stage list; when a forward
check fails it reports the offending edge (source id, target id, source
stage); and every accepted layout satisfies the strict topological order:
every output of a processor sitting in stage `k` lives in a stage `j > k`. -/
theorem layout_validation_topological :
    NewPipelineLayout [] = Except.error LayoutError.emptyLayout
    ∧ (∀ (stages : List PipelineStage) (i f t : Nat),
        stages ≠ [] → findBadEdge stages = some (i, f, t) →
          NewPipelineLayout stages = Except.error (LayoutError.badEdge f t i))
    ∧ (∀ (stages : List PipelineStage) (l : PipelineLayout),
        NewPipelineLayout stages = Except.ok l →
          l.stages = stages
          ∧ ∀ (k : Nat) (st : PipelineStage), stages[k]? = some st →
              ∀ p ∈ st.processors, ∀ q ∈ p.outputs,
                ∃ j, stageOf stages q = some j ∧ k < j) := by
  refine ⟨rfl, ?_, ?_⟩
  · intro stages i f t hne hbad
    unfold NewPipelineLayout
    rw [if_neg (by simpa using hne), hbad]
  · intro stages l h
    unfold NewPipelineLayout at h
    by_cases hemp : stages.isEmpty
    · rw [if_pos hemp] at h; simp at h
    · rw [if_neg hemp] at h
      cases hbad : findBadEdge stages with
      | some trip =>
          obtain ⟨i, f, t⟩ := trip
          rw [hbad] at h
          simp at h
      | none =>
          rw [hbad] at h
          simp only [Except.ok.injEq] at h
          subst h
          refine ⟨rfl, ?_⟩
          intro k st hk p hp q hq
          have hall := List.find?_eq_none.mp hbad
          have hmem : (k, p.id, q) ∈ allLayoutEdges stages := by
            have := mem_stageEdgesFrom stages 0 k st hk p hp q hq
            simpa [allLayoutEdges] using this
          have hok := hall _ hmem
          simp only [Bool.not_eq_true, Bool.not_eq_false] at hok
          exact edgeOk_true (by simpa using hok)

/-- A two-stage linear layout used to witness the validation theorem. -/
def demoStages : List PipelineStage :=
  [NewPipelineStage [Outputs (Do 0) [1]], NewPipelineStage [Do 1]]

/-- A one-stage layout with an edge to a missing processor, used to witness
the bad-edge branch of the validation theorem. -/
def demoBadStages : List PipelineStage :=
  [NewPipelineStage [Outputs (Do 0) [1]]]

/-- Witness for C5: the validation theorem applied to concrete layouts. -/
theorem layout_validation_witness :
    NewPipelineLayout demoStages = Except.ok ⟨demoStages⟩
    ∧ NewPipelineLayout demoBadStages = Except.error (LayoutError.badEdge 0 1 0)
    ∧ (∃ j, stageOf demoStages 1 = some j ∧ 0 < j) := by
  refine ⟨by decide, ?_, ?_⟩
  · exact layout_validation_topological.2.1 demoBadStages 0 0 1 (by decide) (by decide)
  · have h := layout_validation_topological.2.2 demoStages ⟨demoStages⟩ (by decide)
    exact h.2 0 (NewPipelineStage [Outputs (Do 0) [1]]) (by decide)
      (Outputs (Do 0) [1]) (by decide) 1 (by decide)

/-- Helper: one step of the per-node `ProcessData` count. -/
lemma totalPD_cons (x : List JSON) (xs : List (List JSON)) :
    totalProcessData (workerTraces (x :: xs))
      = List.countP WEvent.isProcessData (workerLoop x none)
        + totalProcessData (workerTraces xs) := by
  simp [totalProcessData, workerTraces]

/-- Helper: when the input channel carried nothing, every worker of the
node just sees the close and calls `Finish`; no `ProcessData` happens. -/
lemma workers_of_empty_input (inputs : List (List JSON))
    (h : inputs.flatten = []) :
    totalProcessData (workerTraces inputs) = 0
    ∧ ∀ t ∈ workerTraces inputs, t = [WEvent.finish] := by
  induction inputs with
  | nil => simp [workerTraces, totalProcessData]
  | cons x xs ih =>
      simp only [List.flatten_cons, List.append_eq_nil] at h
      obtain ⟨hx, hxs⟩ := h
      subst hx
      obtain ⟨ih1, ih2⟩ := ih hxs
      constructor
      · rw [totalPD_cons, ih1]
        rfl
      · intro t ht
        simp only [workerTraces, List.map_cons, List.mem_cons] at ht
        rcases ht with h1 | h2
        · subst h1; rfl
        · exact ih2 t (by simpa [workerTraces] using h2)

/-- Helper: when the input channel carried exactly the payload `d`, exactly
one `ProcessData` call happens across the node's workers, and every worker
trace ends in `Finish` right after its receives. -/
lemma workers_of_single_input (d : JSON) :
    ∀ (inputs : List (List JSON)), inputs.flatten = [d] →
      totalProcessData (workerTraces inputs) = 1
      ∧ ∀ t ∈ workerTraces inputs,
          t = [WEvent.finish] ∨ t = [WEvent.processData d, WEvent.finish] := by
  intro inputs
  induction inputs with
  | nil => intro h; simp at h
  | cons x xs ih =>
      intro h
      simp only [List.flatten_cons] at h
      cases x with
      | nil =>
          simp only [List.nil_append] at h
          obtain ⟨ih1, ih2⟩ := ih h
          constructor
          · rw [totalPD_cons, ih1]
            rfl
          · intro t ht
            simp only [workerTraces, List.map_cons, List.mem_cons] at ht
            rcases ht with h1 | h2
            · left; subst h1; rfl
            · exact ih2 t (by simpa [workerTraces] using h2)
      | cons a x' =>
          simp only [List.cons_append, List.cons.injEq] at h
          obtain ⟨ha, hrest⟩ := h
          subst ha
          have hx' : x' = [] ∧ xs.flatten = [] := by
            constructor
            · cases x' with
              | nil => rfl
              | cons b x'' => simp at hrest
            · cases x' with
              | nil => simpa using hrest
              | cons b x'' => simp at hrest
          obtain ⟨hx'nil, hxsnil⟩ := hx'
          subst hx'nil
          obtain ⟨hz1, hz2⟩ := workers_of_empty_input xs hxsnil
          constructor
          · rw [totalPD_cons, hz1]
            rfl
          · intro t ht
            simp only [workerTraces, List.map_cons, List.mem_cons] at ht
            rcases ht with h1 | h2
            · right; subst h1; rfl
            · left; exact hz2 t (by simpa [workerTraces] using h2)

/-- C6: the start token is the UTF-8 bytes of "GO"; for each root, `Run`
writes the token into the root's input channel, then (inline) calls
`Finish`, then closes the channel; and however the token is picked up by
the root's workers, exactly one `ProcessData` call happens across them,
every worker trace ends with a `Finish` call, and the one trace containing
the `ProcessData` performs its `Finish` immediately after it. -/
theorem start_token_single_process_data :
    startSignalJSON = [71, 79]
    ∧ (∀ dp : dataProcessor,
        rootBlock dp = [RunEvent.sendInput dp.id startSignalJSON,
          RunEvent.inlineFinish dp.id, RunEvent.closeInput dp.id])
    ∧ (∀ inputs : List (List JSON), inputs.flatten = [startSignalJSON] →
        totalProcessData (workerTraces inputs) = 1
        ∧ ∀ t ∈ workerTraces inputs,
            t = [WEvent.finish]
            ∨ t = [WEvent.processData startSignalJSON, WEvent.finish]) := by
  refine ⟨by decide, fun dp => rfl, ?_⟩
  intro inputs h
  exact workers_of_single_input startSignalJSON inputs h

/-- Witness for C6: the single-worker distribution of the start token. -/
theorem start_token_witness :
    ([[startSignalJSON]] : List (List JSON)).flatten = [startSignalJSON]
    ∧ (totalProcessData (workerTraces [[startSignalJSON]]) = 1
       ∧ ∀ t ∈ workerTraces [[startSignalJSON]],
           t = [WEvent.finish]
           ∨ t = [WEvent.processData startSignalJSON, WEvent.finish]) :=
  ⟨by simp, start_token_single_process_data.2.2 [[startSignalJSON]] (by simp)⟩

/-- Helper: the wait-barrier invariant of the merge-in adapter.  Starting
with `u` open upstream channels, after events containing `c ≤ u` upstream
closes the barrier holds `u - c` and the input channel has been closed
exactly when the closes reached `u` (and `u ≥ 1`). -/
lemma runMerger_invariant (evts : List UpEvent) :
    ∀ (u icc : Nat), countCloses evts ≤ u →
      evts.foldl mergerStep ⟨u, icc⟩
        = ⟨u - countCloses evts,
           icc + (if countCloses evts = u ∧ 1 ≤ u then 1 else 0)⟩ := by
  induction evts with
  | nil =>
      intro u icc _
      simp only [List.foldl_nil, countCloses, List.countP_nil, Nat.sub_zero]
      rw [if_neg (by omega)]
      simp
  | cons e rest ih =>
      intro u icc h
      cases e with
      | payload s d =>
          have hcount : countCloses (UpEvent.payload s d :: rest) = countCloses rest := by
            simp [countCloses, List.countP_cons, UpEvent.isCloseUp]
          rw [hcount] at h ⊢
          simp only [List.foldl_cons]
          have hstep : mergerStep ⟨u, icc⟩ (UpEvent.payload s d) = ⟨u, icc⟩ := rfl
          rw [hstep]
          exact ih u icc h
      | closeUp s =>
          have hcount : countCloses (UpEvent.closeUp s :: rest) = countCloses rest + 1 := by
            simp [countCloses, List.countP_cons, UpEvent.isCloseUp]
          rw [hcount] at h ⊢
          have hu1 : 1 ≤ u := by omega
          simp only [List.foldl_cons]
          by_cases hu : u - 1 = 0
          · have hueq : u = 1 := by omega
            subst hueq
            have hstep : mergerStep ⟨1, icc⟩ (UpEvent.closeUp s) = ⟨0, icc + 1⟩ := rfl
            rw [hstep]
            have hrest : countCloses rest = 0 := by omega
            have := ih 0 (icc + 1) (by omega)
            rw [this, hrest]
            rw [if_neg (by omega), if_pos (by omega)]
          · have hstep : mergerStep ⟨u, icc⟩ (UpEvent.closeUp s)
                = ⟨u - 1, icc⟩ := by
              simp [mergerStep, hu]
            rw [hstep]
            have := ih (u - 1) icc (by omega)
            rw [this]
            by_cases hc : countCloses rest = u - 1
            · rw [if_pos (by omega), if_pos (by omega)]
              congr 1
              omega
            · rw [if_neg (by omega), if_neg (by omega)]
              congr 1
              omega

/-- C9: (merge-in, modelled from the spec) for a node with `d ≥ 1` upstream
producers each closing its channel at most once, the node's input channel
is closed at most once, it is closed exactly when all `d` producers have
closed — and at no earlier point of the event sequence; (terminator, from
src) the terminator goroutine of a node performs exactly one close of the
node's output channel; and (from src) `Run` closes each root's input
channel exactly once. -/
theorem merge_in_close_protocol :
    ∀ (d : Nat) (evts : List UpEvent), 1 ≤ d → countCloses evts ≤ d →
      ((runMerger d evts).inputCloseCount ≤ 1
       ∧ ((runMerger d evts).inputCloseCount = 1 ↔ countCloses evts = d)
       ∧ (∀ n, (runMerger d (evts.take n)).inputCloseCount = 1 →
            countCloses (evts.take n) = d))
      ∧ terminatorCloseCount true = 1
      ∧ (∀ dp, (rootBlock dp).countP RunEvent.isCloseInput = 1) := by
  intro d evts hd h
  have hmain := runMerger_invariant evts d 0 h
  have hval : (runMerger d evts).inputCloseCount
      = (if countCloses evts = d ∧ 1 ≤ d then 1 else 0) := by
    rw [runMerger, hmain]
    simp
  refine ⟨⟨?_, ?_, ?_⟩, rfl, fun dp => rfl⟩
  · rw [hval]
    split_ifs <;> omega
  · rw [hval]
    constructor
    · intro h1
      by_cases hc : countCloses evts = d ∧ 1 ≤ d
      · exact hc.1
      · rw [if_neg hc] at h1
        omega
    · intro h1
      rw [if_pos ⟨h1, hd⟩]
  · intro n h1
    have hsub := (List.take_sublist n evts).countP_le UpEvent.isCloseUp
    have htake : countCloses (evts.take n) ≤ d := by
      unfold countCloses at h ⊢
      omega
    have hinv := runMerger_invariant (evts.take n) d 0 htake
    have hval2 : (runMerger d (evts.take n)).inputCloseCount
        = (if countCloses (evts.take n) = d ∧ 1 ≤ d then 1 else 0) := by
      rw [runMerger, hinv]
      simp
    rw [hval2] at h1
    by_cases hc : countCloses (evts.take n) = d ∧ 1 ≤ d
    · exact hc.1
    · rw [if_neg hc] at h1
      omega

/-- A concrete merge-in event sequence: two upstream producers, each
forwarding one payload and closing once. -/
def mergeDemoEvents : List UpEvent :=
  [UpEvent.payload 0 [1], UpEvent.closeUp 0, UpEvent.payload 1 [2], UpEvent.closeUp 1]

/-- Witness for C9: the close protocol applied to a concrete two-producer
merge. -/
theorem merge_in_close_witness :
    (1 ≤ 2 ∧ countCloses mergeDemoEvents ≤ 2)
    ∧ (((runMerger 2 mergeDemoEvents).inputCloseCount ≤ 1
        ∧ ((runMerger 2 mergeDemoEvents).inputCloseCount = 1
            ↔ countCloses mergeDemoEvents = 2)
        ∧ (∀ n, (runMerger 2 (mergeDemoEvents.take n)).inputCloseCount = 1 →
             countCloses (mergeDemoEvents.take n) = 2))
       ∧ terminatorCloseCount true = 1
       ∧ (∀ dp, (rootBlock dp).countP RunEvent.isCloseInput = 1)) :=
  ⟨⟨by decide, by decide⟩,
   merge_in_close_protocol 2 mergeDemoEvents (by decide) (by decide)⟩

end Ratchet
